import Mathlib

/-!
# Verification of the BNetzA gas-storage projection script

Shallow embedding of `scripts/2026_gasspeicher_deutschland.py`.

Modelling conventions:
* Python floats are modelled as `ℚ` (exact rational arithmetic); `round(x, n)`
  is modelled as round-half-to-even at `n` decimal places.
* Calendar dates are modelled as day counts (days since 0000-03-01, proleptic
  Gregorian), so date ordering is `Nat` ordering and adding a day offset is
  `Nat` addition.
* `unicodedata.normalize("NFKD", ...)` is modelled for the characters that
  occur in the data-source headers (German umlauts decompose into the base
  letter followed by a combining diaeresis; ASCII characters are NFKD-inert).
* pandas frames are modelled as a header list plus a list of rows of raw
  fields; per-cell numeric/date coercion with errors="coerce" is modelled by
  `Option`-valued parsers.
* The wall-clock timestamp fields of a projection row (`run_timestamp_utc`,
  `run_date_berlin`) read the real clock and are omitted from the record model;
  no claim concerns them.
-/

/-! ## Generic list utilities (splitting, searching) -/

/-- Split a character list at every occurrence of `sep` (the separator is
dropped; empty fields are kept). -/
def splitOnChar (sep : Char) : List Char → List (List Char)
  | [] => [[]]
  | c :: rest =>
    let r := splitOnChar sep rest
    if c = sep then [] :: r
    else
      match r with
      | [] => [[c]]
      | t :: ts => (c :: t) :: ts

/-- Does `pat` occur as a contiguous substring of `s`? -/
def occursIn (pat : List Char) : List Char → Bool
  | [] => pat.isEmpty
  | c :: rest => List.isPrefixOf pat (c :: rest) || occursIn pat rest

/-- Pair each element of a list with its index, starting from `i`. -/
def enumFrom (i : Nat) : List α → List (Nat × α)
  | [] => []
  | x :: xs => (i, x) :: enumFrom (i + 1) xs

/-! ## `normalize_column` -/

/-- Python `str.split()` whitespace, restricted to ASCII (the argument of the
split in `normalize_column` is already ASCII-only). -/
def pyIsSpace (c : Char) : Bool :=
  c == ' ' || c == '\t' || c == '\n' || c == '\r' || c.toNat == 11 || c.toNat == 12

/-- NFKD decomposition of one character, modelled for the characters appearing
in BNetzA headers: Latin letters with diaeresis decompose into the base letter
followed by U+0308; every other character (in particular all of ASCII) is left
alone. -/
def nfkdChar (c : Char) : List Char :=
  if c = 'ü' then ['u', '̈']
  else if c = 'Ü' then ['U', '̈']
  else if c = 'ä' then ['a', '̈']
  else if c = 'Ä' then ['A', '̈']
  else if c = 'ö' then ['o', '̈']
  else if c = 'Ö' then ['O', '̈']
  else [c]

/-- `.encode("ascii", "ignore")`: drop every non-ASCII character. -/
def asciiOnly (s : List Char) : List Char := s.filter (fun c => c.toNat < 128)

/-- Python `str.lower()` on an ASCII string. -/
def lowerChar (c : Char) : Char :=
  if 65 ≤ c.toNat ∧ c.toNat ≤ 90 then Char.ofNat (c.toNat + 32) else c

/-- `.replace("%", "pct")`. -/
def replacePct (s : List Char) : List Char :=
  s.flatMap (fun c => if c = '%' then ['p', 'c', 't'] else [c])

/-- Python `str.split()` (split on runs of whitespace, discarding empty
tokens); `acc` holds the current token reversed. -/
def splitWsAux : List Char → List Char → List (List Char)
  | [], [] => []
  | [], acc => [acc.reverse]
  | c :: rest, acc =>
    if pyIsSpace c then
      match acc with
      | [] => splitWsAux rest []
      | _ => acc.reverse :: splitWsAux rest []
    else splitWsAux rest (c :: acc)

/-- `"_".join(tokens)`. -/
def joinTokens : List (List Char) → List Char
  | [] => []
  | [t] => t
  | t :: t2 :: ts => t ++ '_' :: joinTokens (t2 :: ts)

/-- `normalize_column` on character lists: NFKD-decompose, strip to ASCII,
lowercase, replace `%` with `pct`, collapse whitespace to underscores. -/
def normalizeColumnL (s : List Char) : List Char :=
  joinTokens (splitWsAux (replacePct ((asciiOnly (s.flatMap nfkdChar)).map lowerChar)) [])

/-- `normalize_column` from the script. -/
def normalize_column (s : String) : String := String.mk (normalizeColumnL s.toList)

/-- The fill-level column matcher: normalized name starts with `fullstand` or
contains `fill`. -/
def fillMatch (key : String) : Bool :=
  List.isPrefixOf "fullstand".toList key.toList || occursIn "fill".toList key.toList

/-- The daily-change column matcher: normalized name contains `vortag`
together with `veranderung` or `anderung`, or contains both `previous` and
`change`. -/
def deltaMatch (key : String) : Bool :=
  (occursIn "vortag".toList key.toList &&
    (occursIn "veranderung".toList key.toList || occursIn "anderung".toList key.toList))
  || (occursIn "previous".toList key.toList && occursIn "change".toList key.toList)

/-! ## Calendar dates

Dates are encoded as day counts since 0000-03-01 (proleptic Gregorian civil
calendar), which makes date comparison `Nat` comparison and a calendar-day
offset a `Nat` addition. -/

/-- Gregorian leap year. -/
def isLeapYear (y : Nat) : Bool := (y % 4 == 0 && y % 100 != 0) || y % 400 == 0

/-- Number of days in a month. -/
def daysInMonth (y m : Nat) : Nat :=
  if m = 2 then (if isLeapYear y then 29 else 28)
  else if m = 4 ∨ m = 6 ∨ m = 9 ∨ m = 11 then 30
  else 31

/-- Day count of a civil date (days since 0000-03-01). -/
def toDays (y m d : Nat) : Nat :=
  let y' := if m ≤ 2 then y - 1 else y
  let era := y' / 400
  let yoe := y' % 400
  let mp := (m + 9) % 12
  let doy := (153 * mp + 2) / 5 + d - 1
  let doe := yoe * 365 + yoe / 4 - yoe / 100 + doy
  era * 146097 + doe

/-! ## Cell parsers (pandas per-cell coercion with errors="coerce") -/

/-- Digit list to `Nat` (most significant first); `none` unless all digits. -/
def digitsToNat (s : List Char) : Option Nat :=
  s.foldl
    (fun acc c =>
      match acc with
      | none => none
      | some n => if c.isDigit then some (n * 10 + (c.toNat - 48)) else none)
    (some 0)

/-- Numeric cell parser: optional minus sign, then digits with an optional
comma-separated fractional part — the shape `pd.read_csv(..., decimal=",")` /
`pd.to_numeric(errors="coerce")` accepts for this data source. Anything else
is coerced to missing. -/
def parseNum (s : List Char) : Option ℚ :=
  let core := fun (t : List Char) (neg : Bool) =>
    match splitOnChar ',' t with
    | [ds] =>
      if ds = [] then none
      else (digitsToNat ds).map fun n => if neg then -(n : ℚ) else (n : ℚ)
    | [ds, fs] =>
      if ds = [] ∨ fs = [] then none
      else
        match digitsToNat ds, digitsToNat fs with
        | some n, some f =>
          let q : ℚ := (n : ℚ) + (f : ℚ) / (10 : ℚ) ^ fs.length
          some (if neg then -q else q)
        | _, _ => none
    | _ => none
  match s with
  | '-' :: rest => core rest true
  | _ => core s false

/-- Date cell parser: `pd.to_datetime(..., dayfirst=True, errors="coerce")`
modelled for the dotted day-first format `DD.MM.YYYY` the data source uses,
with calendar validation; anything else is coerced to missing. -/
def parseDate (s : List Char) : Option Nat :=
  match splitOnChar '.' s with
  | [ds, ms, ys] =>
    if ds = [] ∨ ms = [] ∨ ys = [] then none
    else
      match digitsToNat ds, digitsToNat ms, digitsToNat ys with
      | some d, some m, some y =>
        if 1 ≤ m ∧ m ≤ 12 ∧ 1 ≤ d ∧ d ≤ daysInMonth y m ∧ 1 ≤ y then
          some (toDays y m d)
        else none
      | _, _, _ => none
  | _ => none

/-! ## `parse_bnetza_csv` -/

deriving instance DecidableEq for Except

/-- One point of the canonical time series: date (day count), fill level in
percent, daily change in percent (possibly missing). -/
structure SeriesPoint where
  day : Nat
  fill : ℚ
  delta : Option ℚ
deriving DecidableEq, Repr

/-- A raw frame as produced by `pd.read_csv`: header fields and data rows of
raw cells. -/
structure RawFrame where
  header : List (List Char)
  rows : List (List (List Char))
deriving DecidableEq, Repr

/-- Split CSV text into non-blank lines (`pd.read_csv` skips blank lines). -/
def splitCsvLines (s : List Char) : List (List Char) :=
  (splitOnChar '\n' s).filter (fun l => l ≠ [])

/-- `pd.read_csv(io.StringIO(csv_text), sep=";")`: first non-blank line is the
header, the rest are data rows, all split on `;`. -/
def readCsv (s : List Char) : RawFrame :=
  match splitCsvLines s with
  | [] => ⟨[], []⟩
  | h :: rs => ⟨splitOnChar ';' h, rs.map (splitOnChar ';')⟩

/-- Column names after `frame.rename(columns={frame.columns[0]: "day"})`. -/
def frameColumns (f : RawFrame) : List (List Char) :=
  match f.header with
  | [] => []
  | _ :: rest => "day".toList :: rest

/-- Insert into an insertion-ordered dictionary (later duplicate keys
overwrite the stored value, keeping the first key position). -/
def dictInsert (d : List (String × Nat)) (k : String) (v : Nat) : List (String × Nat) :=
  if (d.map Prod.fst).contains k then
    d.map (fun kv => if kv.1 = k then (k, v) else kv)
  else d ++ [(k, v)]

/-- `col_map = {normalize_column(col): col for col in frame.columns}`, with
columns identified by position. -/
def colMap (f : RawFrame) : List (String × Nat) :=
  (enumFrom 0 (frameColumns f)).foldl
    (fun d iv => dictInsert d (normalize_column (String.mk iv.2)) iv.1) []

/-- First column whose normalized name the fill matcher accepts. -/
def findFill (cmap : List (String × Nat)) : Option Nat :=
  (cmap.find? (fun kv => fillMatch kv.1)).map Prod.snd

/-- First column whose normalized name the daily-change matcher accepts. -/
def findDelta (cmap : List (String × Nat)) : Option Nat :=
  (cmap.find? (fun kv => deltaMatch kv.1)).map Prod.snd

/-- Field `i` of a raw row; a missing trailing field reads as the empty cell
(pandas pads short rows with NaN). -/
def getField (r : List (List Char)) (i : Nat) : List Char := (r.get? i).getD []

/-- Stable insertion of a point into a day-sorted list (the point goes before
strictly later days). -/
def insertByDay (p : SeriesPoint) : List SeriesPoint → List SeriesPoint
  | [] => [p]
  | q :: qs => if p.day ≤ q.day then p :: q :: qs else q :: insertByDay p qs

/-- `prepared.sort_values("day")`: sort ascending by day. -/
def sortByDay : List SeriesPoint → List SeriesPoint
  | [] => []
  | p :: ps => insertByDay p (sortByDay ps)

/-- Failure modes of CSV normalization. -/
inductive ParseError where
  | emptyInput
  | columnNotFound
deriving DecidableEq, Repr

/-- `parse_bnetza_csv`: parse the raw text, fail on an empty frame, resolve
the fill-level and daily-change columns heuristically, coerce cells, drop
rows with unparseable dates or missing fill level, and sort by day. -/
def parse_bnetza_csv (csv : String) : Except ParseError (List SeriesPoint) :=
  if (readCsv csv.toList).rows = [] then .error .emptyInput
  else
    match findFill (colMap (readCsv csv.toList)), findDelta (colMap (readCsv csv.toList)) with
    | some fi, some di =>
      .ok (sortByDay ((readCsv csv.toList).rows.filterMap fun r =>
        match parseDate (getField r 0), parseNum (getField r fi) with
        | some d, some fill => some ⟨d, fill, parseNum (getField r di)⟩
        | _, _ => none))
    | _, _ => .error .columnNotFound

/-! ## Rounding (Python `round(x, n)`: round half to even) -/

/-- Round a rational to the nearest integer, ties to even. -/
def roundHalfEven (q : ℚ) : ℤ :=
  if q - ⌊q⌋ < 1/2 then ⌊q⌋
  else if 1/2 < q - ⌊q⌋ then ⌊q⌋ + 1
  else if ⌊q⌋ % 2 = 0 then ⌊q⌋ else ⌊q⌋ + 1

/-- `round(q, n)`: round to `n` decimal places, ties to even. -/
def roundTo (n : Nat) (q : ℚ) : ℚ := (roundHalfEven (q * 10 ^ n) : ℚ) / 10 ^ n

/-! ## `build_projection_row` -/

/-- `rates.min()` on a non-empty series (`0` as a junk value on `[]`, which
`build_projection_row` never reaches). -/
def listMin : List ℚ → ℚ
  | [] => 0
  | x :: xs => xs.foldl min x

/-- `rates.max()`. -/
def listMax : List ℚ → ℚ
  | [] => 0
  | x :: xs => xs.foldl max x

/-- `rates.mean()`: arithmetic mean. -/
def listMean (l : List ℚ) : ℚ := l.sum / l.length

/-- `rate_min_20 = rate_min - abs(rate_min) * 0.2`. -/
def rateMin20 (rates : List ℚ) : ℚ := listMin rates - |listMin rates| * (0.2 : ℚ)

/-- `rate_max_20 = rate_max + abs(rate_max) * 0.2`. -/
def rateMax20 (rates : List ℚ) : ℚ := listMax rates + |listMax rates| * (0.2 : ℚ)

/-- The five named scenarios with their rates, in the script's fixed order. -/
def scenario_rates (rates : List ℚ) : List (String × ℚ) :=
  [("optimistic_20pct_lower_withdrawal", rateMax20 rates),
   ("smallest_withdrawal", listMax rates),
   ("average_withdrawal", listMean rates),
   ("largest_withdrawal", listMin rates),
   ("pessimistic_20pct_higher_withdrawal", rateMin20 rates)]

/-- The per-scenario output columns of a projection row. -/
structure ScenarioOut where
  rate : ℚ
  target : Option Nat
  days : Option ℚ
deriving DecidableEq, Repr

/-- Loop body of `build_projection_row`'s scenario loop. The scenario rate is
stored rounded to 6 decimals, but the `rate >= 0` branch uses the unrounded
rate. For a negative rate, `days_to_min = max((current_level - minimum_pct) /
abs(rate), 0.0)` is stored rounded to 3 decimals, and the target date is the
anchor date plus the fractional day offset; since the anchor timestamp is at
midnight, `(last_date + pd.to_timedelta(days_to_min, unit="D")).date()` is the
anchor day count plus the floor of `days_to_min`. -/
def scenarioResult (lastDate : Nat) (currentLevel minimumPct rate : ℚ) : ScenarioOut :=
  if 0 ≤ rate then ⟨roundTo 6 rate, none, none⟩
  else
    let daysToMin := max ((currentLevel - minimumPct) / |rate|) 0
    ⟨roundTo 6 rate, some (lastDate + (⌊daysToMin⌋).toNat), some (roundTo 3 daysToMin)⟩

/-- One flattened projection row. The wall-clock fields and the two constant
source-URL fields are omitted (no claim concerns them); everything else is
kept with the script's rounding. -/
structure ProjectionRecord where
  data_source_mode : String
  lookback_days : Nat
  minimum_threshold_pct : ℚ
  latest_data_date : Nat
  current_fill_level_pct : ℚ
  rate_min_pct_per_day : ℚ
  rate_avg_pct_per_day : ℚ
  rate_max_pct_per_day : ℚ
  scenarios : List (String × ScenarioOut)
deriving DecidableEq, Repr

/-- `frame.tail(n)`: the trailing `n` rows. -/
def listTail (n : Nat) (l : List SeriesPoint) : List SeriesPoint := l.drop (l.length - n)

/-- Failure modes of the projection engine. -/
inductive BuildError where
  | noUsableRows
  | emptyWindow
  | noRateData
deriving DecidableEq, Repr

/-- `build_projection_row`: take the trailing window, read the anchor row,
collect the non-missing daily changes, compute the rate statistics and the
five scenario projections. -/
def build_projection_row (series : List SeriesPoint) (minimum_pct : ℚ)
    (lookback_days : Nat) (source_mode : String) : Except BuildError ProjectionRecord :=
  if series = [] then .error .noUsableRows
  else
    let windowed := listTail lookback_days series
    match windowed.getLast? with
    | none => .error .emptyWindow
    | some last =>
      let rates := windowed.filterMap SeriesPoint.delta
      if rates = [] then .error .noRateData
      else
        .ok
          { data_source_mode := source_mode
            lookback_days := lookback_days
            minimum_threshold_pct := minimum_pct
            latest_data_date := last.day
            current_fill_level_pct := roundTo 4 last.fill
            rate_min_pct_per_day := roundTo 6 (listMin rates)
            rate_avg_pct_per_day := roundTo 6 (listMean rates)
            rate_max_pct_per_day := roundTo 6 (listMax rates)
            scenarios := (scenario_rates rates).map
              (fun kv => (kv.1, scenarioResult last.day last.fill minimum_pct kv.2)) }

/-! ## `append_projection_row` -/

/-- The persisted projections table: a header and rows of cells. -/
structure Table where
  cols : List String
  rows : List (List String)
deriving DecidableEq, Repr

/-- A serialized projection row: ordered field names with cell values. -/
abbrev LedgerRow := List (String × String)

/-- `append_projection_row`, on the loaded state of the ledger file (`none`
models a missing or empty file). On an existing table, the first loop gives
the new row every existing-only column with an empty value, the second loop
gives the existing table every new-only column with an empty value, and the
new row is reindexed to the existing table's (extended) column order and
concatenated below the existing rows. -/
def append_projection_row (ledger : Option Table) (record : LedgerRow) : Table :=
  match ledger with
  | none => ⟨record.map Prod.fst, [record.map Prod.snd]⟩
  | some t =>
    let recExt := t.cols.foldl
      (fun r c => if (r.map Prod.fst).contains c then r else r ++ [(c, "")]) record
    let cols2 := (recExt.map Prod.fst).foldl
      (fun cs c => if cs.contains c then cs else cs ++ [c]) t.cols
    let rows2 := t.rows.map (fun r => r ++ List.replicate (cols2.length - t.cols.length) "")
    let newRow := cols2.map (fun c => (recExt.lookup c).getD "")
    ⟨cols2, rows2 ++ [newRow]⟩

/-! ## `update_readme_projection` -/

/-- Python `str.strip()` on a line (ASCII whitespace). -/
def stripLine (s : String) : String :=
  String.mk (((s.toList.dropWhile pyIsSpace).reverse.dropWhile pyIsSpace).reverse)

/-- The fixed section heading `PROJECTION_SECTION_HEADING`. -/
def projectionSectionHeading : String := "## Letzte Projektionen"

/-- First index `≥ start` of a line accepted by `p`, scanning forward. -/
def findIdxFrom (p : String → Bool) : List String → Nat → Option Nat
  | [], _ => none
  | l :: ls, i => if p l then some i else findIdxFrom p ls (i + 1)

/-- Index of the heading line (first line whose strip equals the heading). -/
def findHeadingIdx (lines : List String) : Option Nat :=
  findIdxFrom (fun l => stripLine l = projectionSectionHeading) lines 0

/-- Index of the first line after the heading whose strip is the opening
fence of the projection block. -/
def findBlockStartIdx (lines : List String) : Option Nat :=
  (findHeadingIdx lines).bind fun h =>
    (findIdxFrom (fun l => stripLine l = "```text") (lines.drop (h + 1)) 0).map (h + 1 + ·)

/-- Index of the first closing fence after the block start. -/
def findBlockEndIdx (lines : List String) : Option Nat :=
  (findBlockStartIdx lines).bind fun s =>
    (findIdxFrom (fun l => stripLine l = "```") (lines.drop (s + 1)) 0).map (s + 1 + ·)

/-- `update_readme_projection` on the document's lines, with the replacement
block (the script's `build_projection_block_lines(row)`, fence lines
included) passed as a parameter. When the heading or either fence is missing
the function warns and leaves the lines unchanged; otherwise it splices the
new block over the old one. -/
def update_readme_projection (newBlock : List String) (lines : List String) : List String :=
  match findBlockStartIdx lines, findBlockEndIdx lines with
  | some s, some e => lines.take s ++ newBlock ++ lines.drop (e + 1)
  | _, _ => lines

/-! ## The run pipeline (ledger effect of `main`) -/

/-- The effect of one run on the loaded ledger state: parse, build, then
append; any error aborts the run before the ledger is touched. The
serialization of a record into ledger cells (string formatting) is passed as
a parameter. -/
def run_pipeline (serialize : ProjectionRecord → LedgerRow) (csv : String) (minimum_pct : ℚ)
    (lookback_days : Nat) (source_mode : String) (ledger : Option Table) : Option Table :=
  match parse_bnetza_csv csv with
  | .error _ => ledger
  | .ok pts =>
    match build_projection_row pts minimum_pct lookback_days source_mode with
    | .error _ => ledger
    | .ok rec => some (append_projection_row ledger (serialize rec))

/-! ## Theorems -/

/-- Packing a valid codepoint and reading it back is the identity. -/
theorem char_toNat_ofNat_of_valid {n : Nat} (h : n.isValidChar) : (Char.ofNat n).toNat = n := by
  rw [Char.ofNat, dif_pos h]; rfl

unseal Rat.add Rat.mul Rat.inv Rat.sub Rat.ofScientific in
/-- C2: on the two-point window (2025-01-01, 90.0, -0.5), (2025-01-02, 89.4,
-0.6) with minimum 20 and lookback 30, `build_projection_row` reports
rate_min = -0.6, rate_avg = -0.55, rate_max = -0.5, and the average scenario
has days-to-min 126.182 (3 decimals) and target date 2025-05-08. -/
theorem claim2_end_to_end_example :
    (build_projection_row
        [⟨toDays 2025 1 1, 90, some (-(1/2))⟩, ⟨toDays 2025 1 2, 447/5, some (-(3/5))⟩]
        20 30 "network").toOption.map
      (fun r => (r.rate_min_pct_per_day, r.rate_avg_pct_per_day, r.rate_max_pct_per_day,
        r.scenarios.lookup "average_withdrawal"))
    = some (-(3/5), -(11/20), -(1/2),
        some ⟨-(11/20), some (toDays 2025 5 8), some (63091/500)⟩) := by decide

/-- C5 counterexample: the header "fuellstand" normalizes to "fuellstand",
which neither starts with "fullstand" nor contains "fill", so the fill-level
matcher rejects it — it does not resolve to the fill-level column. -/
theorem claim5_counterexample : fillMatch (normalize_column "fuellstand") = false := by decide

/-- C5 (amended): column matching is insensitive to casing and diacritics for
the headers "Füllstand" and "FULLSTAND", which both normalize to "fullstand"
and are matched by the fill-level matcher; the spelled-out variant
"fuellstand" is not matched. -/
theorem claim5_header_matching :
    fillMatch (normalize_column "Füllstand") = true ∧
    fillMatch (normalize_column "FULLSTAND") = true ∧
    fillMatch (normalize_column "fuellstand") = false := by decide

/-- C8: when the heading line is absent, or no opening fence follows it, or
no closing fence follows the opening fence, `update_readme_projection` leaves
the document lines unchanged (the script prints a warning and returns). -/
theorem claim8_skip_leaves_document (newBlock lines : List String)
    (h : findHeadingIdx lines = none ∨ findBlockStartIdx lines = none ∨
      findBlockEndIdx lines = none) :
    update_readme_projection newBlock lines = lines := by
  have hend : findBlockEndIdx lines = none ∨ findBlockStartIdx lines = none := by
    rcases h with h | h | h
    · right
      simp [findBlockStartIdx, h]
    · right
      exact h
    · left
      exact h
  rcases hend with h | h
  · cases hs : findBlockStartIdx lines <;> simp [update_readme_projection, hs, h]
  · simp [update_readme_projection, h, findBlockEndIdx]

/-- Witness for C8 at a concrete document with no heading line. -/
theorem claim8_witness :
    (findHeadingIdx ["hello", "world"] = none ∨
      findBlockStartIdx ["hello", "world"] = none ∨
      findBlockEndIdx ["hello", "world"] = none) ∧
    update_readme_projection ["B"] ["hello", "world"] = ["hello", "world"] :=
  ⟨Or.inl (by decide), claim8_skip_leaves_document ["B"] ["hello", "world"] (Or.inl (by decide))⟩

/-- Lowercasing an ASCII character stays in ASCII. -/
theorem lowerChar_toNat_lt {c : Char} (h : c.toNat < 128) : (lowerChar c).toNat < 128 := by
  unfold lowerChar
  split
  · next hc =>
    rw [char_toNat_ofNat_of_valid (Or.inl (by omega))]
    omega
  · exact h

/-- The image of the ASCII lowercasing map contains no uppercase letter. -/
theorem lowerChar_not_upper (c : Char) :
    ¬(65 ≤ (lowerChar c).toNat ∧ (lowerChar c).toNat ≤ 90) := by
  unfold lowerChar
  split
  · next hc =>
    rw [char_toNat_ofNat_of_valid (Or.inl (by omega))]
    omega
  · next hc => exact hc

/-- ASCII lowercasing is idempotent. -/
theorem lowerChar_idem (c : Char) : lowerChar (lowerChar c) = lowerChar c := by
  show (if 65 ≤ (lowerChar c).toNat ∧ (lowerChar c).toNat ≤ 90
      then Char.ofNat ((lowerChar c).toNat + 32) else lowerChar c) = lowerChar c
  rw [if_neg (lowerChar_not_upper c)]

/-- An ASCII character is NFKD-inert. -/
theorem nfkdChar_eq_of_lt {c : Char} (h : c.toNat < 128) : nfkdChar c = [c] := by
  unfold nfkdChar
  split_ifs with h1 h2 h3 h4 h5 h6
  · exact absurd h (by subst h1; decide)
  · exact absurd h (by subst h2; decide)
  · exact absurd h (by subst h3; decide)
  · exact absurd h (by subst h4; decide)
  · exact absurd h (by subst h5; decide)
  · exact absurd h (by subst h6; decide)
  · rfl

/-- A flat map by a function that is pointwise the singleton is the identity. -/
theorem flatMap_eq_self {f : Char → List Char} :
    ∀ {s : List Char}, (∀ c ∈ s, f c = [c]) → s.flatMap f = s
  | [], _ => rfl
  | c :: cs, h => by
    rw [List.flatMap_cons, h c (.head _), flatMap_eq_self fun x hx => h x (.tail _ hx)]
    rfl

/-- A map by a function that is pointwise the identity is the identity. -/
theorem map_eq_self {f : Char → Char} :
    ∀ {s : List Char}, (∀ c ∈ s, f c = c) → s.map f = s
  | [], _ => rfl
  | c :: cs, h => by
    rw [List.map_cons, h c (.head _), map_eq_self fun x hx => h x (.tail _ hx)]

/-- Characters of the tokens produced by `splitWsAux` satisfy any predicate
holding on the non-space input characters and on the accumulator. -/
theorem splitWsAux_chars (p : Char → Prop) :
    ∀ (s acc : List Char), (∀ c ∈ s, pyIsSpace c = false → p c) → (∀ c ∈ acc, p c) →
      ∀ t ∈ splitWsAux s acc, ∀ c ∈ t, p c := by
  intro s
  induction s with
  | nil =>
    intro acc _ hacc t ht c hc
    cases acc with
    | nil => simp [splitWsAux] at ht
    | cons a as =>
      simp only [splitWsAux, List.mem_singleton] at ht
      subst ht
      exact hacc c (List.mem_reverse.mp hc)
  | cons c0 rest ih =>
    intro acc hs hacc t ht c hc
    by_cases hsp : pyIsSpace c0 = true
    · cases acc with
      | nil =>
        rw [show splitWsAux (c0 :: rest) [] = splitWsAux rest [] from by
          simp [splitWsAux, hsp]] at ht
        exact ih [] (fun x hx => hs x (.tail _ hx)) (by simp) t ht c hc
      | cons a as =>
        rw [show splitWsAux (c0 :: rest) (a :: as) = (a :: as).reverse :: splitWsAux rest []
            from by simp [splitWsAux, hsp]] at ht
        rcases List.mem_cons.mp ht with h1 | h1
        · subst h1
          exact hacc c (List.mem_reverse.mp hc)
        · exact ih [] (fun x hx => hs x (.tail _ hx)) (by simp) t h1 c hc
    · rw [Bool.not_eq_true] at hsp
      rw [show splitWsAux (c0 :: rest) acc = splitWsAux rest (c0 :: acc) from by
        simp [splitWsAux, hsp]] at ht
      refine ih (c0 :: acc) (fun x hx => hs x (.tail _ hx)) ?_ t ht c hc
      intro x hx
      rcases List.mem_cons.mp hx with h1 | h1
      · subst h1
        exact hs x (.head _) hsp
      · exact hacc x h1

/-- Characters of a joined token list satisfy any predicate holding on the
token characters and on the underscore. -/
theorem joinTokens_chars (p : Char → Prop) (hu : p '_') :
    ∀ (ts : List (List Char)), (∀ t ∈ ts, ∀ c ∈ t, p c) → ∀ c ∈ joinTokens ts, p c := by
  intro ts
  induction ts with
  | nil =>
    intro _ c hc
    simp [joinTokens] at hc
  | cons t ts2 ih =>
    intro hts c hc
    cases ts2 with
    | nil =>
      simp only [joinTokens] at hc
      exact hts t (.head _) c hc
    | cons t2 ts3 =>
      simp only [joinTokens] at hc
      rcases List.mem_append.mp hc with h1 | h1
      · exact hts t (.head _) c h1
      · rcases List.mem_cons.mp h1 with h2 | h2
        · subst h2
          exact hu
        · exact ih (fun u hu2 => hts u (.tail _ hu2)) c h2

/-- Every character of a normalized column name is ASCII, lowercase-fixed,
not a percent sign and not whitespace. -/
theorem normalizeColumnL_chars (s : List Char) :
    ∀ c ∈ normalizeColumnL s,
      c.toNat < 128 ∧ lowerChar c = c ∧ c ≠ '%' ∧ pyIsSpace c = false := by
  have base : ∀ a ∈ replacePct ((asciiOnly (s.flatMap nfkdChar)).map lowerChar),
      pyIsSpace a = false →
      a.toNat < 128 ∧ lowerChar a = a ∧ a ≠ '%' ∧ pyIsSpace a = false := by
    intro a ha hasp
    unfold replacePct at ha
    rcases List.mem_flatMap.mp ha with ⟨b, hb, hab⟩
    by_cases hbp : b = '%'
    · rw [if_pos hbp] at hab
      have h3 : a = 'p' ∨ a = 'c' ∨ a = 't' := by simpa using hab
      rcases h3 with h | h | h <;> subst h <;> exact ⟨by decide, by decide, by decide, hasp⟩
    · rw [if_neg hbp, List.mem_singleton] at hab
      subst hab
      rcases List.mem_map.mp hb with ⟨d, hd, hdb⟩
      have hd128 : d.toNat < 128 := by
        have hm := List.mem_filter.mp hd
        simpa using hm.2
      subst hdb
      exact ⟨lowerChar_toNat_lt hd128, lowerChar_idem d, hbp, hasp⟩
  intro c hc
  unfold normalizeColumnL at hc
  exact joinTokens_chars
    (fun a => a.toNat < 128 ∧ lowerChar a = a ∧ a ≠ '%' ∧ pyIsSpace a = false)
    (by refine ⟨by decide, by decide, by decide, by decide⟩)
    _ (splitWsAux_chars _ _ [] base (by simp)) c hc

/-- `splitWsAux` on a whitespace-free string yields one accumulated token. -/
theorem splitWsAux_no_space :
    ∀ (s acc : List Char), (∀ c ∈ s, pyIsSpace c = false) →
      splitWsAux s acc = if acc = [] ∧ s = [] then [] else [acc.reverse ++ s] := by
  intro s
  induction s with
  | nil =>
    intro acc _
    cases acc with
    | nil => simp [splitWsAux]
    | cons a as => simp [splitWsAux]
  | cons c0 rest ih =>
    intro acc hs
    have hsp : pyIsSpace c0 = false := hs c0 (.head _)
    rw [show splitWsAux (c0 :: rest) acc = splitWsAux rest (c0 :: acc) from by
      simp [splitWsAux, hsp]]
    rw [ih (c0 :: acc) (fun x hx => hs x (.tail _ hx))]
    simp

/-- Normalization is the identity on a string of ASCII, lowercase-fixed,
percent-free, whitespace-free characters. -/
theorem normalizeColumnL_eq_self (s : List Char)
    (h : ∀ c ∈ s, c.toNat < 128 ∧ lowerChar c = c ∧ c ≠ '%' ∧ pyIsSpace c = false) :
    normalizeColumnL s = s := by
  unfold normalizeColumnL replacePct asciiOnly
  rw [flatMap_eq_self (fun c hc => nfkdChar_eq_of_lt (h c hc).1)]
  rw [List.filter_eq_self.mpr (fun c hc => by simpa using (h c hc).1)]
  rw [map_eq_self (fun c hc => (h c hc).2.1)]
  rw [flatMap_eq_self (fun c hc => by rw [if_neg (h c hc).2.2.1])]
  rw [splitWsAux_no_space s [] (fun c hc => (h c hc).2.2.2)]
  cases s with
  | nil => rfl
  | cons c cs => simp [joinTokens]

/-- C9: header normalization is idempotent. -/
theorem claim9_normalize_idempotent (s : String) :
    normalize_column (normalize_column s) = normalize_column s := by
  unfold normalize_column
  congr 1
  exact normalizeColumnL_eq_self _ (normalizeColumnL_chars s.toList)

/-- A left fold by `min` is bounded by its initial value. -/
theorem foldl_min_le_init : ∀ (xs : List ℚ) (x : ℚ), xs.foldl min x ≤ x
  | [], _ => le_refl _
  | a :: as, x => le_trans (foldl_min_le_init as (min x a)) (min_le_left _ _)

/-- A left fold by `min` is bounded by every list element. -/
theorem foldl_min_le_mem : ∀ (xs : List ℚ) (x y : ℚ), y ∈ xs → xs.foldl min x ≤ y
  | a :: as, x, y, h => by
    rcases List.mem_cons.mp h with h1 | h1
    · subst h1
      exact le_trans (foldl_min_le_init as (min x y)) (min_le_right _ _)
    · exact foldl_min_le_mem as (min x a) y h1

/-- A left fold by `max` bounds its initial value. -/
theorem le_foldl_max_init : ∀ (xs : List ℚ) (x : ℚ), x ≤ xs.foldl max x
  | [], _ => le_refl _
  | a :: as, x => le_trans (le_max_left _ _) (le_foldl_max_init as (max x a))

/-- A left fold by `max` bounds every list element. -/
theorem le_foldl_max_mem : ∀ (xs : List ℚ) (x y : ℚ), y ∈ xs → y ≤ xs.foldl max x
  | a :: as, x, y, h => by
    rcases List.mem_cons.mp h with h1 | h1
    · subst h1
      exact le_trans (le_max_right _ _) (le_foldl_max_init as (max x y))
    · exact le_foldl_max_mem as (max x a) y h1

/-- The series minimum bounds every element from below. -/
theorem listMin_le_mem (l : List ℚ) (y : ℚ) (hy : y ∈ l) : listMin l ≤ y := by
  match l, hy with
  | x :: xs, hy =>
    rcases List.mem_cons.mp hy with h1 | h1
    · subst h1
      exact foldl_min_le_init xs y
    · exact foldl_min_le_mem xs x y h1

/-- The series maximum bounds every element from above. -/
theorem mem_le_listMax (l : List ℚ) (y : ℚ) (hy : y ∈ l) : y ≤ listMax l := by
  match l, hy with
  | x :: xs, hy =>
    rcases List.mem_cons.mp hy with h1 | h1
    · subst h1
      exact le_foldl_max_init xs y
    · exact le_foldl_max_mem xs x y h1

/-- The minimum of a non-empty rate list is at most its mean. -/
theorem listMin_le_listMean (l : List ℚ) (h : l ≠ []) : listMin l ≤ listMean l := by
  have hlen : 0 < (l.length : ℚ) := by
    have := List.length_pos.mpr h
    exact_mod_cast this
  rw [listMean, le_div_iff₀ hlen]
  have hs : l.length • listMin l ≤ l.sum :=
    List.card_nsmul_le_sum l (listMin l) (fun x hx => listMin_le_mem l x hx)
  rw [nsmul_eq_mul] at hs
  linarith [hs]

/-- The mean of a non-empty rate list is at most its maximum. -/
theorem listMean_le_listMax (l : List ℚ) (h : l ≠ []) : listMean l ≤ listMax l := by
  have hlen : 0 < (l.length : ℚ) := by
    have := List.length_pos.mpr h
    exact_mod_cast this
  rw [listMean, div_le_iff₀ hlen]
  have hs : l.sum ≤ l.length • listMax l :=
    List.sum_le_card_nsmul l (listMax l) (fun x hx => mem_le_listMax l x hx)
  rw [nsmul_eq_mul] at hs
  linarith [hs]

/-- C3: for every non-empty rate list, the five scenario rates used by
`build_projection_row` are ordered `rate_min_20 ≤ rate_min ≤ rate_avg ≤
rate_max ≤ rate_max_20`, strictly at the lower end when `rate_min < 0` and
strictly at the upper end when `rate_max > 0`. -/
theorem claim3_rate_ordering (l : List ℚ) (h : l ≠ []) :
    rateMin20 l ≤ listMin l ∧ listMin l ≤ listMean l ∧ listMean l ≤ listMax l ∧
    listMax l ≤ rateMax20 l ∧
    (listMin l < 0 → rateMin20 l < listMin l) ∧
    (0 < listMax l → listMax l < rateMax20 l) := by
  have h02 : (0 : ℚ) < (0.2 : ℚ) := by norm_num
  refine ⟨?_, listMin_le_listMean l h, listMean_le_listMax l h, ?_, ?_, ?_⟩
  · rw [rateMin20]
    have : 0 ≤ |listMin l| * (0.2 : ℚ) := mul_nonneg (abs_nonneg _) (le_of_lt h02)
    linarith
  · rw [rateMax20]
    have : 0 ≤ |listMax l| * (0.2 : ℚ) := mul_nonneg (abs_nonneg _) (le_of_lt h02)
    linarith
  · intro hneg
    rw [rateMin20]
    have : 0 < |listMin l| * (0.2 : ℚ) := mul_pos (abs_pos.mpr (ne_of_lt hneg)) h02
    linarith
  · intro hpos
    rw [rateMax20]
    have : 0 < |listMax l| * (0.2 : ℚ) := mul_pos (abs_pos.mpr (ne_of_gt hpos)) h02
    linarith

unseal Rat.add Rat.mul Rat.inv Rat.sub Rat.ofScientific in
/-- Witness for C3 at the concrete rate list of the worked example. -/
theorem claim3_witness :
    ([-(1/2), -(3/5)] : List ℚ) ≠ [] ∧
    (rateMin20 [-(1/2), -(3/5)] ≤ listMin [-(1/2), -(3/5)] ∧
      listMin [-(1/2), -(3/5)] ≤ listMean [-(1/2), -(3/5)] ∧
      listMean [-(1/2), -(3/5)] ≤ listMax [-(1/2), -(3/5)] ∧
      listMax [-(1/2), -(3/5)] ≤ rateMax20 [-(1/2), -(3/5)] ∧
      (listMin [-(1/2), -(3/5)] < 0 → rateMin20 [-(1/2), -(3/5)] < listMin [-(1/2), -(3/5)]) ∧
      (0 < listMax [-(1/2), -(3/5)] → listMax [-(1/2), -(3/5)] < rateMax20 [-(1/2), -(3/5)])) :=
  ⟨by decide, claim3_rate_ordering [-(1/2), -(3/5)] (by decide)⟩

/-- The head of a day-ordered insertion is the new point or the old head. -/
theorem insertByDay_head (p : SeriesPoint) (l : List SeriesPoint) :
    (insertByDay p l).head? = some p ∨ (insertByDay p l).head? = l.head? := by
  cases l with
  | nil => left; rfl
  | cons q qs =>
    by_cases h : p.day ≤ q.day
    · left
      simp [insertByDay, h]
    · right
      simp [insertByDay, h]

/-- Day-ordered insertion preserves ascending day order. -/
theorem chain_insertByDay (p : SeriesPoint) :
    ∀ (l : List SeriesPoint), List.Chain' (fun a b => a.day ≤ b.day) l →
      List.Chain' (fun a b => a.day ≤ b.day) (insertByDay p l) := by
  intro l
  induction l with
  | nil =>
    intro _
    simp [insertByDay]
  | cons q qs ih =>
    intro h
    by_cases hpq : p.day ≤ q.day
    · rw [show insertByDay p (q :: qs) = p :: q :: qs from by simp [insertByDay, hpq]]
      exact List.chain'_cons.mpr ⟨hpq, h⟩
    · rw [show insertByDay p (q :: qs) = q :: insertByDay p qs from by
        simp [insertByDay, hpq]]
      have h2 := List.chain'_cons'.mp h
      refine List.chain'_cons'.mpr ⟨?_, ih h2.2⟩
      intro y hy
      rcases insertByDay_head p qs with hh | hh
      · rw [hh, Option.mem_some_iff] at hy
        subst hy
        omega
      · rw [hh] at hy
        exact h2.1 y hy

/-- The day-sorted series is ascending by day. -/
theorem sortByDay_chain :
    ∀ (l : List SeriesPoint), List.Chain' (fun a b => a.day ≤ b.day) (sortByDay l)
  | [] => List.chain'_nil
  | p :: ps => chain_insertByDay p (sortByDay ps) (sortByDay_chain ps)

unseal Rat.add Rat.mul Rat.inv Rat.sub in
/-- C4 counterexample: a CSV whose two data rows carry the same date parses
successfully, and the resulting series has a duplicate date, so its dates are
not strictly ascending. -/
theorem claim4_counterexample :
    parse_bnetza_csv
        "Datum;Füllstand in %;Veränderung zum Vortag\n01.01.2025;90,0;-0,5\n01.01.2025;89,4;-0,6"
      = .ok [⟨toDays 2025 1 1, 90, some (-(1/2))⟩, ⟨toDays 2025 1 1, 447/5, some (-(3/5))⟩] ∧
    ¬ List.Chain' (fun a b : SeriesPoint => a.day < b.day)
        ([⟨toDays 2025 1 1, 90, some (-(1/2))⟩, ⟨toDays 2025 1 1, 447/5, some (-(3/5))⟩]
          : List SeriesPoint) := by
  constructor
  · decide
  · simp [List.chain'_cons]

/-- C4 (amended): every series returned by `parse_bnetza_csv` is sorted
ascending by date, but only non-strictly — rows with duplicate dates are kept,
not deduplicated. -/
theorem claim4_sorted_ascending (csv : String) (pts : List SeriesPoint)
    (h : parse_bnetza_csv csv = .ok pts) :
    List.Chain' (fun a b => a.day ≤ b.day) pts := by
  unfold parse_bnetza_csv at h
  split at h
  · exact Except.noConfusion h
  · split at h
    · rw [Except.ok.injEq] at h
      subst h
      exact sortByDay_chain _
    · exact Except.noConfusion h

unseal Rat.add Rat.mul Rat.inv Rat.sub in
/-- Witness for C4 at a concrete CSV with two distinct ascending dates. -/
theorem claim4_witness :
    parse_bnetza_csv
        "Datum;Füllstand in %;Veränderung zum Vortag\n01.01.2025;90,0;-0,5\n02.01.2025;89,4;-0,6"
      = .ok [⟨toDays 2025 1 1, 90, some (-(1/2))⟩, ⟨toDays 2025 1 2, 447/5, some (-(3/5))⟩] ∧
    List.Chain' (fun a b : SeriesPoint => a.day ≤ b.day)
      ([⟨toDays 2025 1 1, 90, some (-(1/2))⟩, ⟨toDays 2025 1 2, 447/5, some (-(3/5))⟩]
        : List SeriesPoint) :=
  ⟨by decide,
    claim4_sorted_ascending
      "Datum;Füllstand in %;Veränderung zum Vortag\n01.01.2025;90,0;-0,5\n02.01.2025;89,4;-0,6"
      _ (by decide)⟩

/-- C7 counterexample: a header-only CSV has no resolvable daily-change (or
fill-level) column, yet normalization fails with the empty-input failure, not
the column-not-found failure, because the emptiness check runs first. -/
theorem claim7_counterexample :
    deltaMatch (normalize_column "day") = false ∧
    deltaMatch (normalize_column "b") = false ∧
    findDelta (colMap (readCsv ("a;b" : String).toList)) = none ∧
    findFill (colMap (readCsv ("a;b" : String).toList)) = none ∧
    parse_bnetza_csv "a;b" = .error .emptyInput ∧
    parse_bnetza_csv "a;b" ≠ .error .columnNotFound :=
  ⟨by decide, by decide, by decide, by decide, by decide, by decide⟩

/-- C7 (amended): on any CSV with at least one data row in which the
fill-level or the daily-change column cannot be resolved, normalization fails
with the column-not-found failure, and the run leaves the ledger unchanged
(no row is appended). -/
theorem claim7_column_not_found (csv : String)
    (hrows : (readCsv csv.toList).rows ≠ [])
    (hcol : findFill (colMap (readCsv csv.toList)) = none ∨
      findDelta (colMap (readCsv csv.toList)) = none) :
    parse_bnetza_csv csv = .error .columnNotFound ∧
    ∀ (serialize : ProjectionRecord → LedgerRow) (m : ℚ) (lb : Nat) (sm : String)
      (ledger : Option Table),
      run_pipeline serialize csv m lb sm ledger = ledger := by
  have hp : parse_bnetza_csv csv = .error .columnNotFound := by
    unfold parse_bnetza_csv
    rw [if_neg hrows]
    rcases hcol with h | h
    · rw [h]
    · cases hf : findFill (colMap (readCsv csv.toList)) with
      | none => rfl
      | some fi => rw [h]
  refine ⟨hp, ?_⟩
  intro serialize m lb sm ledger
  unfold run_pipeline
  rw [hp]

/-- Witness for C7 at a concrete one-row CSV with no resolvable columns. -/
theorem claim7_witness :
    (readCsv ("Datum;x\n01.01.2025;1" : String).toList).rows ≠ [] ∧
    findFill (colMap (readCsv ("Datum;x\n01.01.2025;1" : String).toList)) = none ∧
    (parse_bnetza_csv "Datum;x\n01.01.2025;1" = .error .columnNotFound ∧
      ∀ (serialize : ProjectionRecord → LedgerRow) (m : ℚ) (lb : Nat) (sm : String)
        (ledger : Option Table),
        run_pipeline serialize "Datum;x\n01.01.2025;1" m lb sm ledger = ledger) :=
  ⟨by decide, by decide,
    claim7_column_not_found "Datum;x\n01.01.2025;1" (by decide) (Or.inl (by decide))⟩

/-- C10: on a CSV with at least one raw data row whose columns resolve but
whose every row is dropped (unparseable date or non-numeric fill level),
`parse_bnetza_csv` returns the empty series without failing, and the failure
is raised instead by the initial empty-series guard of
`build_projection_row`. -/
theorem claim10_all_rows_dropped (csv : String) (m : ℚ) (lb : Nat) (sm : String) (fi di : Nat)
    (hrows : (readCsv csv.toList).rows ≠ [])
    (hf : findFill (colMap (readCsv csv.toList)) = some fi)
    (hd : findDelta (colMap (readCsv csv.toList)) = some di)
    (hdrop : ∀ r ∈ (readCsv csv.toList).rows,
      parseDate (getField r 0) = none ∨ parseNum (getField r fi) = none) :
    parse_bnetza_csv csv = .ok [] ∧
    build_projection_row [] m lb sm = .error .noUsableRows := by
  constructor
  · unfold parse_bnetza_csv
    rw [if_neg hrows]
    simp only [hf, hd]
    have hfm : (readCsv csv.toList).rows.filterMap
        (fun r =>
          match parseDate (getField r 0), parseNum (getField r fi) with
          | some d, some fill => some (⟨d, fill, parseNum (getField r di)⟩ : SeriesPoint)
          | _, _ => none) = [] := by
      rw [List.filterMap_eq_nil_iff]
      intro r hr
      rcases hdrop r hr with h | h
      · rw [h]
      · cases hpd : parseDate (getField r 0) with
        | none => rfl
        | some d => rw [h]
    rw [hfm]
    rfl
  · rfl

/-- Witness for C10 at a concrete CSV whose one data row has a bad date. -/
theorem claim10_witness :
    (readCsv ("Datum;Füllstand in %;Veränderung zum Vortag\nfoo;90,0;-0,5" : String).toList).rows
      ≠ [] ∧
    findFill (colMap
      (readCsv ("Datum;Füllstand in %;Veränderung zum Vortag\nfoo;90,0;-0,5" : String).toList))
      = some 1 ∧
    findDelta (colMap
      (readCsv ("Datum;Füllstand in %;Veränderung zum Vortag\nfoo;90,0;-0,5" : String).toList))
      = some 2 ∧
    (parse_bnetza_csv "Datum;Füllstand in %;Veränderung zum Vortag\nfoo;90,0;-0,5" = .ok [] ∧
      build_projection_row [] 20 30 "network" = .error .noUsableRows) :=
  ⟨by decide, by decide, by decide,
    claim10_all_rows_dropped "Datum;Füllstand in %;Veränderung zum Vortag\nfoo;90,0;-0,5"
      20 30 "network" 1 2 (by decide) (by decide) (by decide)
      (by
        intro r hr
        have hr2 : r = [("foo" : String).toList, ("90,0" : String).toList,
            ("-0,5" : String).toList] := by
          have : (readCsv
              ("Datum;Füllstand in %;Veränderung zum Vortag\nfoo;90,0;-0,5" : String).toList).rows
              = [[("foo" : String).toList, ("90,0" : String).toList,
                  ("-0,5" : String).toList]] := by decide
          rw [this] at hr
          simpa using hr
        subst hr2
        left
        decide)⟩

/-- The column-adding loop of `append_projection_row`: folding fresh,
duplicate-free column names onto a column list appends exactly the names not
already present, in order. -/
theorem foldl_addCol :
    ∀ (xs : List String), xs.Nodup → ∀ (cs : List String),
      xs.foldl (fun cs c => if cs.contains c then cs else cs ++ [c]) cs
        = cs ++ xs.filter (fun c => !cs.contains c) := by
  intro xs
  induction xs with
  | nil =>
    intro _ cs
    simp
  | cons x xs ih =>
    intro hnd cs
    have hx : x ∉ xs := (List.nodup_cons.mp hnd).1
    have hxs : xs.Nodup := (List.nodup_cons.mp hnd).2
    by_cases hc : cs.contains x
    · rw [List.foldl_cons, if_pos hc, ih hxs cs, List.filter_cons, if_neg (by simpa using hc)]
    · rw [List.foldl_cons, if_neg hc, ih hxs (cs ++ [x])]
      have hfeq : xs.filter (fun c => !(cs ++ [x]).contains c)
          = xs.filter (fun c => !cs.contains c) := by
        apply List.filter_congr
        intro c hcxs
        have hne2 : c ≠ x := fun he => hx (he ▸ hcxs)
        simp [List.mem_append, hne2]
      rw [hfeq, List.filter_cons, if_pos (by simpa using hc)]
      simp

/-- The field-adding loop of `append_projection_row`: folding fresh,
duplicate-free column names onto a record appends an empty-valued field for
each name whose key is not already present, in order. -/
theorem foldl_addField :
    ∀ (xs : List String), xs.Nodup → ∀ (r : LedgerRow),
      xs.foldl (fun r c => if (r.map Prod.fst).contains c then r else r ++ [(c, "")]) r
        = r ++ (xs.filter (fun c => !(r.map Prod.fst).contains c)).map (fun c => (c, "")) := by
  intro xs
  induction xs with
  | nil =>
    intro _ r
    simp
  | cons x xs ih =>
    intro hnd r
    have hx : x ∉ xs := (List.nodup_cons.mp hnd).1
    have hxs : xs.Nodup := (List.nodup_cons.mp hnd).2
    by_cases hc : (r.map Prod.fst).contains x
    · rw [List.foldl_cons, if_pos hc, ih hxs r, List.filter_cons, if_neg (by simpa using hc)]
    · rw [List.foldl_cons, if_neg hc, ih hxs (r ++ [(x, "")])]
      have hfeq : xs.filter (fun c => !((r ++ [(x, "")]).map Prod.fst).contains c)
          = xs.filter (fun c => !(r.map Prod.fst).contains c) := by
        apply List.filter_congr
        intro c hcxs
        have hne2 : c ≠ x := fun he => hx (he ▸ hcxs)
        simp [List.mem_append, hne2]
      rw [hfeq, List.filter_cons, if_pos (by simpa using hc)]
      simp

/-- Looking up in an all-empty-valued record yields the empty default. -/
theorem lookup_all_empty (c : String) :
    ∀ (l : LedgerRow), (∀ kv ∈ l, kv.2 = "") → ((l.lookup c).getD "") = "" := by
  intro l
  induction l with
  | nil => intro _; rfl
  | cons kv l' ih =>
    obtain ⟨k, v⟩ := kv
    intro h2
    rw [List.lookup_cons]
    cases hbe : c == k with
    | true => exact h2 (k, v) (.head _)
    | false => exact ih (fun x hx => h2 x (.tail _ hx))

/-- A lookup through an appended all-empty-valued suffix agrees with the
defaulted lookup in the prefix. -/
theorem lookup_append_empty (c : String) :
    ∀ (l1 l2 : LedgerRow), (∀ kv ∈ l2, kv.2 = "") →
      (((l1 ++ l2).lookup c).getD "") = ((l1.lookup c).getD "") := by
  intro l1
  induction l1 with
  | nil =>
    intro l2 h2
    simp only [List.nil_append, List.lookup_nil, Option.getD_none]
    exact lookup_all_empty c l2 h2
  | cons kv l1' ih =>
    obtain ⟨k, v⟩ := kv
    intro l2 h2
    rw [List.cons_append, List.lookup_cons, List.lookup_cons]
    cases hbe : c == k with
    | true => rfl
    | false => exact ih l2 h2

/-- C6: appending a record to a non-empty ledger table (with duplicate-free
headers on both sides) yields the existing columns followed by the record's
new columns in record order; existing rows keep their order, padded with
empty cells for new columns; the new row comes last, reindexed to the full
column order with empty cells for absent fields; and the resulting column set
is the union of both column sets. -/
theorem claim6_append_schema (t : Table) (record : LedgerRow)
    (ht : t.cols.Nodup) (hr : (record.map Prod.fst).Nodup) :
    append_projection_row (some t) record =
      { cols := t.cols ++ (record.map Prod.fst).filter (fun c => !t.cols.contains c),
        rows := t.rows.map (fun r =>
            r ++ List.replicate
              ((record.map Prod.fst).filter (fun c => !t.cols.contains c)).length "")
          ++ [(t.cols ++ (record.map Prod.fst).filter (fun c => !t.cols.contains c)).map
              (fun c => (record.lookup c).getD "")] } ∧
    ∀ c, (c ∈ (append_projection_row (some t) record).cols ↔
      c ∈ t.cols ∨ c ∈ record.map Prod.fst) := by
  have hrecExt := foldl_addField t.cols ht record
  have hextVals : ∀ kv ∈ (t.cols.filter
      (fun c => !(record.map Prod.fst).contains c)).map (fun c => (c, "")), kv.2 = "" := by
    intro kv hkv
    rcases List.mem_map.mp hkv with ⟨a, _, rfl⟩
    rfl
  have hextKeys : ((record ++ (t.cols.filter
        (fun c => !(record.map Prod.fst).contains c)).map (fun c => (c, ""))).map Prod.fst)
      = record.map Prod.fst ++ t.cols.filter (fun c => !(record.map Prod.fst).contains c) := by
    rw [List.map_append, List.map_map]
    congr 1
    exact List.map_id _
  have hkeys : (record.map Prod.fst
      ++ t.cols.filter (fun c => !(record.map Prod.fst).contains c)).Nodup := by
    rw [List.nodup_append]
    refine ⟨hr, ht.filter _, ?_⟩
    intro a ha hae
    have h2 := (List.mem_filter.mp hae).2
    simp only [Bool.not_eq_eq_eq_not, Bool.not_true] at h2
    have h3 : a ∉ record.map Prod.fst := by simpa using h2
    exact h3 ha
  have hcols2 : (record.map Prod.fst
        ++ t.cols.filter (fun c => !(record.map Prod.fst).contains c)).foldl
        (fun cs c => if cs.contains c then cs else cs ++ [c]) t.cols
      = t.cols ++ (record.map Prod.fst).filter (fun c => !t.cols.contains c) := by
    rw [foldl_addCol _ hkeys t.cols, List.filter_append]
    have hnil : (t.cols.filter (fun c => !(record.map Prod.fst).contains c)).filter
        (fun c => !t.cols.contains c) = [] := by
      rw [List.filter_eq_nil_iff]
      intro a ha
      have ha2 : a ∈ t.cols := (List.mem_filter.mp ha).1
      simp [ha2]
    rw [hnil, List.append_nil]
  have hmain : append_projection_row (some t) record =
      { cols := t.cols ++ (record.map Prod.fst).filter (fun c => !t.cols.contains c),
        rows := t.rows.map (fun r =>
            r ++ List.replicate
              ((record.map Prod.fst).filter (fun c => !t.cols.contains c)).length "")
          ++ [(t.cols ++ (record.map Prod.fst).filter (fun c => !t.cols.contains c)).map
              (fun c => (record.lookup c).getD "")] } := by
    simp only [append_projection_row]
    rw [hrecExt, hextKeys, hcols2]
    have hlen : (t.cols ++ (record.map Prod.fst).filter (fun c => !t.cols.contains c)).length
        - t.cols.length
        = ((record.map Prod.fst).filter (fun c => !t.cols.contains c)).length := by
      rw [List.length_append, Nat.add_sub_cancel_left]
    simp only [hlen]
    have hrow : (t.cols ++ (record.map Prod.fst).filter (fun c => !t.cols.contains c)).map
        (fun c => (((record ++ (t.cols.filter
            (fun c => !(record.map Prod.fst).contains c)).map (fun c => (c, ""))).lookup c).getD ""))
        = (t.cols ++ (record.map Prod.fst).filter (fun c => !t.cols.contains c)).map
          (fun c => ((record.lookup c).getD "")) := by
      apply List.map_congr_left
      intro c _
      exact lookup_append_empty c record _ hextVals
    rw [hrow]
  refine ⟨hmain, ?_⟩
  intro c
  rw [hmain]
  simp only [List.mem_append, List.mem_filter]
  constructor
  · intro h
    rcases h with h | h
    · exact Or.inl h
    · exact Or.inr h.1
  · intro h
    rcases h with h | h
    · exact Or.inl h
    · by_cases hc : c ∈ t.cols
      · exact Or.inl hc
      · refine Or.inr ⟨h, ?_⟩
        simpa using hc

/-- Witness for C6 at a concrete one-row table and a two-field record sharing
one column. -/
theorem claim6_witness :
    (["a"] : List String).Nodup ∧
    (([("a", "2"), ("b", "3")] : LedgerRow).map Prod.fst).Nodup ∧
    (append_projection_row (some ⟨["a"], [["1"]]⟩) [("a", "2"), ("b", "3")] =
      { cols := ["a"] ++ ((([("a", "2"), ("b", "3")] : LedgerRow).map Prod.fst).filter
          (fun c => !(["a"] : List String).contains c)),
        rows := [["1"]].map (fun r =>
            r ++ List.replicate
              ((([("a", "2"), ("b", "3")] : LedgerRow).map Prod.fst).filter
                (fun c => !(["a"] : List String).contains c)).length "")
          ++ [(["a"] ++ ((([("a", "2"), ("b", "3")] : LedgerRow).map Prod.fst).filter
              (fun c => !(["a"] : List String).contains c))).map
              (fun c => (([("a", "2"), ("b", "3")] : LedgerRow).lookup c).getD "")] } ∧
      ∀ c, (c ∈ (append_projection_row (some ⟨["a"], [["1"]]⟩)
          [("a", "2"), ("b", "3")]).cols ↔
        c ∈ (["a"] : List String) ∨
          c ∈ ([("a", "2"), ("b", "3")] : LedgerRow).map Prod.fst)) :=
  ⟨by decide, by decide,
    claim6_append_schema ⟨["a"], [["1"]]⟩ [("a", "2"), ("b", "3")] (by decide) (by decide)⟩

/-- Round-half-to-even maps nonnegative rationals to nonnegative integers. -/
theorem roundHalfEven_nonneg {q : ℚ} (h : 0 ≤ q) : 0 ≤ roundHalfEven q := by
  unfold roundHalfEven
  have hf : (0 : ℤ) ≤ ⌊q⌋ := Int.floor_nonneg.mpr h
  split_ifs <;> omega

/-- Decimal rounding maps nonnegative rationals p nonnegative rationals. -/
theorem roundTo_nonneg (n : Nat) (q : ℚ) (h : 0 ≤ q) : 0 ≤ roundTo n q := by
  unfold roundTo
  apply div_nonneg
  · exact_mod_cast roundHalfEven_nonneg (mul_nonneg h (by positivity))
  · positivity

/-- C1: in every record produced by `build_projection_row`, each scenario
whose unrounded rate is nonnegative has absent target date and days-to-min;
each scenario with a negative rate carries `days_to_min = max((current_level
- minimum_pct) / abs(rate), 0)` (rounded to 3 decimals for storage, hence
nonnegative) and a target date equal to the anchor date plus that fractional
day count applied as a calendar-day offset (the date of the midnight anchor
shifted by the fractional days, i.e. the anchor day plus the floor of
`days_to_min`). -/
theorem claim1_scenario_fields (series : List SeriesPoint) (m : ℚ) (lb : Nat) (sm : String)
    (rec : ProjectionRecord) (h : build_projection_row series m lb sm = .ok rec) :
    ∃ cur : ℚ, rec.current_fill_level_pct = roundTo 4 cur ∧
      ∀ kv ∈ rec.scenarios, ∃ rate : ℚ,
        kv.2.rate = roundTo 6 rate ∧
        (0 ≤ rate → kv.2.target = none ∧ kv.2.days = none) ∧
        (rate < 0 →
          kv.2.days = some (roundTo 3 (max ((cur - m) / |rate|) 0)) ∧
          kv.2.target = some (rec.latest_data_date + (⌊max ((cur - m) / |rate|) 0⌋).toNat) ∧
          ∀ d : ℚ, kv.2.days = some d → 0 ≤ d) := by
  simp only [build_projection_row] at h
  split at h
  · exact Except.noConfusion h
  · split at h
    · exact Except.noConfusion h
    · next last hlast =>
      split at h
      · exact Except.noConfusion h
      · rw [Except.ok.injEq] at h
        subst h
        refine ⟨last.fill, rfl, ?_⟩
        intro kv hkv
        rcases List.mem_map.mp hkv with ⟨kv0, hkv0, rfl⟩
        have hrate : (scenarioResult last.day last.fill m kv0.2).rate = roundTo 6 kv0.2 := by
          simp only [scenarioResult]
          by_cases hge : 0 ≤ kv0.2
          · rw [if_pos hge]
          · rw [if_neg hge]
        refine ⟨kv0.2, hrate, ?_, ?_⟩
        · intro hge
          simp only [scenarioResult]
          rw [if_pos hge]
          exact ⟨rfl, rfl⟩
        · intro hlt
          have hnge : ¬(0 ≤ kv0.2) := not_le.mpr hlt
          simp only [scenarioResult]
          rw [if_neg hnge]
          refine ⟨rfl, rfl, ?_⟩
          intro d hd
          rw [Option.some.injEq] at hd
          subst hd
          exact roundTo_nonneg 3 _ (le_max_right _ _)

unseal Rat.add Rat.mul Rat.inv Rat.sub Rat.ofScientific in
/-- Witness for C1 at a concrete one-point series (all five scenario rates
are negative, so every scenario carries a target date and days-to-min). -/
theorem claim1_witness :
    build_projection_row [⟨100, 30, some (-2)⟩] 20 7 "cache" = .ok
      { data_source_mode := "cache", lookback_days := 7, minimum_threshold_pct := 20,
        latest_data_date := 100, current_fill_level_pct := 30,
        rate_min_pct_per_day := -2, rate_avg_pct_per_day := -2, rate_max_pct_per_day := -2,
        scenarios := [
          ("optimistic_20pct_lower_withdrawal", ⟨-(8/5), some 106, some (25/4)⟩),
          ("smallest_withdrawal", ⟨-2, some 105, some 5⟩),
          ("average_withdrawal", ⟨-2, some 105, some 5⟩),
          ("largest_withdrawal", ⟨-2, some 105, some 5⟩),
          ("pessimistic_20pct_higher_withdrawal", ⟨-(12/5), some 104, some (4167/1000)⟩)] } ∧
    (∃ cur : ℚ, (30 : ℚ) = roundTo 4 cur ∧
      ∀ kv ∈ ([
          ("optimistic_20pct_lower_withdrawal", ⟨-(8/5), some 106, some (25/4)⟩),
          ("smallest_withdrawal", ⟨-2, some 105, some 5⟩),
          ("average_withdrawal", ⟨-2, some 105, some 5⟩),
          ("largest_withdrawal", ⟨-2, some 105, some 5⟩),
          ("pessimistic_20pct_higher_withdrawal", ⟨-(12/5), some 104, some (4167/1000)⟩)]
          : List (String × ScenarioOut)), ∃ rate : ℚ,
        kv.2.rate = roundTo 6 rate ∧
        (0 ≤ rate → kv.2.target = none ∧ kv.2.days = none) ∧
        (rate < 0 →
          kv.2.days = some (roundTo 3 (max ((cur - 20) / |rate|) 0)) ∧
          kv.2.target = some (100 + (⌊max ((cur - 20) / |rate|) 0⌋).toNat) ∧
          ∀ d : ℚ, kv.2.days = some d → 0 ≤ d)) :=
  ⟨by decide,
    claim1_scenario_fields [⟨100, 30, some (-2)⟩] 20 7 "cache"
      { data_source_mode := "cache", lookback_days := 7, minimum_threshold_pct := 20,
        latest_data_date := 100, current_fill_level_pct := 30,
        rate_min_pct_per_day := -2, rate_avg_pct_per_day := -2, rate_max_pct_per_day := -2,
        scenarios := [
          ("optimistic_20pct_lower_withdrawal", ⟨-(8/5), some 106, some (25/4)⟩),
          ("smallest_withdrawal", ⟨-2, some 105, some 5⟩),
          ("average_withdrawal", ⟨-2, some 105, some 5⟩),
          ("largest_withdrawal", ⟨-2, some 105, some 5⟩),
          ("pessimistic_20pct_higher_withdrawal", ⟨-(12/5), some 104, some (4167/1000)⟩)] }
      (by decide)⟩
